import Mathlib

/-!
Verification of the `LazyExecute` lazy-loading proxy
(`src/psd/lazy_execute.js`) against its natural-language specification.

The JavaScript class wraps a target object and a seekable file.  It records
the file position at construction time (`startPos`), lets the caller register
an eager method (`now`), a deferred load method (`later`) and a list of
pass-through member names (`ignore`), and returns a `Proxy` whose `get` trap
lazily triggers the deferred load on the first access to a non-pass-through
member.

Modelling choices (shallow embedding):
  * The file is reduced to its seek/tell contract: a record holding the
    current cursor position.  `tell` reads it, `seek` overwrites it.
  * The target object's readable members are a partial map
    `String → Option V` (`none` plays the role of JavaScript `undefined`);
    its callable members are given by a separate method table
    `MTable V`.  A method receives the target's data, the shared file and an
    argument list, and returns the (possibly partially) mutated data, the
    mutated file, and `some e` when it throws `e`.
  * JavaScript exceptions are values of `JsError`; a result component
    `Option JsError` is `some e` exactly when the modelled code throws.
  * `this.obj[this.loadMethod]` with `loadMethod = null` looks up the
    property key `"null"` (JavaScript coerces the key to a string); calling
    an absent member throws a `TypeError`.
  * Invocation counting: `load` and `get` additionally return the number of
    times the deferred operation itself was invoked during the call (0 or 1),
    so that the at-most-once claims can be stated without touching the
    modelled state.
  * The `console.log` call in the `get` trap is output-only and is not
    modelled.
-/

/-- JavaScript exception values that the modelled code can raise. -/
inductive JsError where
  | typeError
  | referenceError
  | stackOverflow
  | userError (msg : String)
deriving DecidableEq, Repr

/-- The seekable file, reduced to its seek/tell contract: the cursor. -/
structure File where
  pos : Int
deriving DecidableEq, Repr

/-- `file.tell()` returns the current cursor position. -/
def File.tell (f : File) : Int := f.pos

/-- `file.seek(p)` moves the cursor to the absolute position `p`. -/
def File.seek (f : File) (p : Int) : File := { f with pos := p }

/-- Readable members of the target object: `none` is JavaScript `undefined`. -/
def ObjData (V : Type) : Type := String → Option V

/-- A callable member of the target object: it receives the target's data,
the shared file and the argument list, and returns the mutated data, the
mutated file, and `some e` exactly when it throws. -/
def Method (V : Type) : Type :=
  ObjData V → File → List V → ObjData V × File × Option JsError

/-- The callable surface of the target object, keyed by member name;
`none` means the member is absent (calling it throws a `TypeError`). -/
def MTable (V : Type) : Type := String → Option (Method V)

/-- The property key JavaScript uses for `obj[null]`. -/
def nullKey : String := "null"

/-- The mutable state of one `LazyExecute` binding: the fields assigned by
the JavaScript constructor.  `objRef` models the identity (reference) of the
wrapped target, which no operation of the class ever reassigns; the target's
readable members live in `objData`. -/
structure LEState (V : Type) where
  objRef : Nat
  objData : ObjData V
  file : File
  startPos : Int
  loaded : Bool
  loadMethod : Option String
  loadArgs : List V
  passthru : List String

/-- `constructor(obj, file)`: stores the object and the file, records
`startPos = file.tell()`, and initialises `loaded = false`,
`loadMethod = null`, `loadArgs = []`, `passthru = []`. -/
def LazyExecute.construct {V : Type} (objRef : Nat) (objData : ObjData V)
    (file : File) : LEState V :=
  { objRef := objRef
    objData := objData
    file := file
    startPos := file.tell
    loaded := false
    loadMethod := none
    loadArgs := []
    passthru := [] }

/-- `now(method, ...args)`: immediately invokes `this.obj[method](...args)`.
Returns the mutated binding and the error the method threw, if any. -/
def LazyExecute.now {V : Type} (mt : MTable V) (s : LEState V)
    (method : String) (args : List V) : LEState V × Option JsError :=
  match mt method with
  | none => (s, some JsError.typeError)
  | some f =>
    match f s.objData s.file args with
    | (obj2, file2, e) => ({ s with objData := obj2, file := file2 }, e)

/-- `later(method, ...args)`: records the deferred method name and its
arguments; invokes nothing. -/
def LazyExecute.later {V : Type} (s : LEState V) (method : String)
    (args : List V) : LEState V :=
  { s with loadMethod := some method, loadArgs := args }

/-- `ignore(...args)`: appends the given names to `this.passthru`. -/
def LazyExecute.ignore {V : Type} (s : LEState V) (args : List String) :
    LEState V :=
  { s with passthru := s.passthru ++ args }

/-- The tail of `load()` after the deferred method has been invoked, split
out so that proofs can rewrite with the invocation's result.  The full
translation of `load()`:
```
const origPos = this.file.tell();
this.file.seek(this.startPos);
this.obj[this.loadMethod].apply(this.obj, this.loadArgs);
this.file.seek(origPos);
this.loaded = true;
```
`origPos` is the cursor before the first seek, i.e. `s.file.tell`.  When
`this.obj[this.loadMethod]` is absent (in particular when `later` was never
called, so the looked-up key is `"null"`), the call throws a `TypeError`
with the cursor already moved to `startPos`.  When the method itself throws,
the exception propagates immediately: neither the restoring seek nor the
`loaded = true` assignment runs.  The final component counts invocations of
the deferred operation (0 or 1). -/
def LazyExecute.loadRun {V : Type} (s : LEState V)
    (r : ObjData V × File × Option JsError) : LEState V × Option JsError × Nat :=
  match r with
  | (obj2, file2, some e) =>
      ({ s with objData := obj2, file := file2 }, some e, 1)
  | (obj2, file2, none) =>
      ({ s with objData := obj2
                file := file2.seek s.file.tell
                loaded := true }, none, 1)

/-- `load()` itself: look the deferred method up on the target (the key is
`"null"` when `later` was never called) and, if present, invoke it on the
state with the cursor moved to `startPos`, finishing via
`LazyExecute.loadRun`. -/
def LazyExecute.load {V : Type} (mt : MTable V) (s : LEState V) :
    LEState V × Option JsError × Nat :=
  match mt (s.loadMethod.getD nullKey) with
  | none => ({ s with file := s.file.seek s.startPos }, some JsError.typeError, 0)
  | some f =>
    LazyExecute.loadRun s (f s.objData (s.file.seek s.startPos) s.loadArgs)

/-- The `get` trap of the proxy:
```
get: (target, name, receiver) => {
  if (!this.loaded && !this.passthru.includes(name)) { this.load(); }
  return target[name];
}
```
Returns the mutated binding, the propagated error (if `load` threw), the
value read from the target (`none` for `undefined`, and no value when the
access threw), and the number of deferred-operation invocations. -/
def LazyExecute.get {V : Type} (mt : MTable V) (s : LEState V)
    (name : String) : LEState V × Option JsError × Option V × Nat :=
  if !s.loaded && !(s.passthru.contains name) then
    match LazyExecute.load mt s with
    | (s1, some e, n) => (s1, some e, none, n)
    | (s1, none, n) => (s1, none, s1.objData name, n)
  else
    (s, none, s.objData name, 0)

/-- The `apply` trap of the proxy, translated as written:
```
apply: (target, self, args) => {
  if (!this.loaded && !this.passthru.includes(name)) { ... this.load(); }
  target.apply(self, args);
}
```
The identifier `name` is not bound anywhere in the trap (its parameters are
`target`, `self`, `args`), so when `this.loaded` is `false` the condition
evaluates the unbound identifier and throws a `ReferenceError`.  When
`this.loaded` is `true` the `&&` short-circuits before `name` is read and
control reaches `target.apply(self, args)`: the target is a plain
non-callable object whose `apply` member is `undefined`, so the call throws
a `TypeError`.  The trap body has no `return` statement, so no value is ever
produced.  No deferred-operation invocation can happen (final count 0). -/
def LazyExecute.applyTrap {V : Type} (s : LEState V) (_args : List V) :
    LEState V × Option JsError × Option V × Nat :=
  if s.loaded = false then
    (s, some JsError.referenceError, none, 0)
  else
    (s, some JsError.typeError, none, 0)

/-- A sequence of top-level member accesses through the proxy, each one
routed through the `get` trap; returns the final binding state and the total
number of deferred-operation invocations. -/
def LazyExecute.runAccesses {V : Type} (mt : MTable V) (s : LEState V) :
    List String → LEState V × Nat
  | [] => (s, 0)
  | n :: rest =>
    ((LazyExecute.runAccesses mt (LazyExecute.get mt s n).1 rest).1,
      (LazyExecute.get mt s n).2.2.2 +
        (LazyExecute.runAccesses mt (LazyExecute.get mt s n).1 rest).2)

/-!
Re-entrant accesses.  The deferred operation runs with the proxy already
visible to the rest of the program, so its body may itself access members
through the proxy.  To reason about this, the body of a callable member is
modelled as a small program of atomic actions, and the proxy/load semantics
is given as a fuel-indexed interpreter: each recursive entry into the
`load` sequence consumes one unit of fuel, and running out of fuel models
exhausting the call stack (`stackOverflow`).
-/

/-- One atomic step of a deferred operation's body. -/
inductive JsAction (V : Type) where
  | seekTo (p : Int)
  | setProp (k : String) (v : V)
  | access (name : String)
  | throwErr (e : JsError)

/-- The callable surface of the target for the re-entrant model: each
member's body is a program of atomic actions. -/
def MTable2 (V : Type) : Type := String → Option (List (JsAction V))

/-- Fuel-indexed interpreter for action programs running against a binding.
`seekTo` moves the shared cursor, `setProp` writes a member of the target,
`throwErr` raises, and `access` re-enters the proxy `get` trap: if the
binding is unloaded and the name is not passed through, the whole `load`
sequence of `LazyExecute.load` runs inline (seek to `startPos`, run the
deferred program, seek back, set `loaded`), recursing through this
interpreter.  Running out of fuel on a triggering access models call-stack
exhaustion.  The final component counts deferred-operation invocations. -/
def runActions {V : Type} (mt : MTable2 V) :
    Nat → LEState V → List (JsAction V) → LEState V × Option JsError × Nat
  | _, s, [] => (s, none, 0)
  | 0, s, _ :: _ => (s, some JsError.stackOverflow, 0)
  | fuel + 1, s, JsAction.seekTo p :: rest =>
      runActions mt fuel { s with file := s.file.seek p } rest
  | fuel + 1, s, JsAction.setProp k v :: rest =>
      runActions mt fuel
        { s with objData := fun n => if n = k then some v else s.objData n } rest
  | _ + 1, s, JsAction.throwErr e :: _ => (s, some e, 0)
  | fuel + 1, s, JsAction.access name :: rest =>
      if !s.loaded && !(s.passthru.contains name) then
        match mt (s.loadMethod.getD nullKey) with
        | none =>
            ({ s with file := s.file.seek s.startPos }, some JsError.typeError, 0)
        | some prog =>
          match runActions mt fuel
              { s with file := s.file.seek s.startPos } prog with
          | (s2, some e, k) => (s2, some e, k + 1)
          | (s2, none, k) =>
            match runActions mt fuel
                { s2 with file := s2.file.seek s.file.tell, loaded := true } rest with
            | (s3, e3, k3) => (s3, e3, (k + 1) + k3)
      else
        runActions mt fuel s rest

/-!
Concrete instances used by counterexamples and witnesses.
-/

/-- Member-name constant. -/
def kParse : String := "parse"

/-- Member-name constant. -/
def kX : String := "x"

/-- Member-name constant. -/
def kW : String := "width"

/-- Member-name constant. -/
def kH : String := "height"

/-- Member-name constant. -/
def kData : String := "pixels"

/-- Member-name constant. -/
def kMissing : String := "absent"

/-- Member-name constant. -/
def kM : String := "m"

/-- Member-name constant. -/
def kSeen : String := "seenPos"

/-- Error-message constant. -/
def kBoom : String := "boom"

/-- A deferred operation that succeeds: it stores `42` under `kData` and
leaves the cursor at position `900`. -/
def opOk : Method Int := fun obj file _ =>
  ((fun n => if n = kData then some 42 else obj n), file.seek 900, none)

/-- Method table exposing `opOk` under the name `kParse`. -/
def mtOk : MTable Int := fun m => if m = kParse then some opOk else none

/-- A deferred operation that throws without moving the cursor. -/
def opFail : Method Int := fun obj file _ =>
  (obj, file, some (JsError.userError kBoom))

/-- Method table exposing `opFail` under the name `kParse`. -/
def mtFail : MTable Int := fun m => if m = kParse then some opFail else none

/-- The empty method table: every call throws a `TypeError`. -/
def mtEmpty : MTable Int := fun _ => none

/-- A deferred operation that records the cursor position at which it was
invoked under the member `kSeen` and changes nothing else. -/
def probe : Method Int := fun obj file _ =>
  ((fun n => if n = kSeen then some file.pos else obj n), file, none)

/-- Method table exposing `probe` under the name `kParse`. -/
def probeTable : MTable Int := fun m => if m = kParse then some probe else none

/-- A binding as left by
`new LazyExecute(obj, file).now(skip).later(parse)` with the region
starting at offset `100` and the cursor now at `500`. -/
def sPre : LEState Int :=
  { objRef := 1
    objData := fun _ => none
    file := { pos := 500 }
    startPos := 100
    loaded := false
    loadMethod := some kParse
    loadArgs := []
    passthru := [] }

/-- `sPre` with the spec's scenario pass-through names `width`/`height`
registered via `ignore`, and `width` readable without loading. -/
def sW : LEState Int :=
  { sPre with
    objData := fun n => if n = kW then some 640 else none
    passthru := [kW, kH] }

/-- A binding whose target has a readable member `kM`, with `kM` registered
as pass-through. -/
def sApply : LEState Int :=
  { sPre with
    objData := fun n => if n = kM then some 7 else none
    passthru := [kM] }

/-- A binding on which `later` was never called: `loadMethod` is still
`null`. -/
def sNoLater : LEState Int :=
  { sPre with loadMethod := none }

/-- Re-entrant method table: the deferred operation `kParse` itself accesses
the non-pass-through member `kX` through the proxy. -/
def mtReent : MTable2 Int :=
  fun m => if m = kParse then some [JsAction.access kX] else none


/-!
Case-equation lemmas for `load` and `get`, used by the claim proofs.
-/

/-- `load` when the looked-up member is absent: a `TypeError` is thrown with
the cursor already moved to `startPos` and the deferred operation was never
invoked. -/
theorem load_eq_absent {V : Type} (mt : MTable V) (s : LEState V)
    (hmt : mt (s.loadMethod.getD nullKey) = none) :
    LazyExecute.load mt s =
      ({ s with file := s.file.seek s.startPos }, some JsError.typeError, 0) := by
  unfold LazyExecute.load
  rw [hmt]

/-- `load` when the deferred operation throws: the error propagates, the
partially mutated data and the cursor are left exactly as the operation left
them, and `loaded` keeps its old value. -/
theorem load_eq_err {V : Type} (mt : MTable V) (s : LEState V) (f : Method V)
    (obj2 : ObjData V) (file2 : File) (e : JsError)
    (hmt : mt (s.loadMethod.getD nullKey) = some f)
    (hf : f s.objData (s.file.seek s.startPos) s.loadArgs =
      (obj2, file2, some e)) :
    LazyExecute.load mt s =
      ({ s with objData := obj2, file := file2 }, some e, 1) := by
  unfold LazyExecute.load
  rw [hmt]
  show LazyExecute.loadRun s
    (f s.objData (s.file.seek s.startPos) s.loadArgs) = _
  rw [hf]
  rfl

/-- `load` when the deferred operation succeeds: the cursor is restored to
its pre-load value and `loaded` becomes `true`. -/
theorem load_eq_ok {V : Type} (mt : MTable V) (s : LEState V) (f : Method V)
    (obj2 : ObjData V) (file2 : File)
    (hmt : mt (s.loadMethod.getD nullKey) = some f)
    (hf : f s.objData (s.file.seek s.startPos) s.loadArgs =
      (obj2, file2, none)) :
    LazyExecute.load mt s =
      ({ s with
          objData := obj2
          file := file2.seek s.file.tell
          loaded := true }, none, 1) := by
  unfold LazyExecute.load
  rw [hmt]
  show LazyExecute.loadRun s
    (f s.objData (s.file.seek s.startPos) s.loadArgs) = _
  rw [hf]
  rfl

/-- The `get` trap on a triggering access whose load throws. -/
theorem get_eq_trigger_err {V : Type} (mt : MTable V) (s : LEState V)
    (name : String) (s1 : LEState V) (e : JsError) (n : Nat)
    (hs : s.loaded = false) (hn : s.passthru.contains name = false)
    (hld : LazyExecute.load mt s = (s1, some e, n)) :
    LazyExecute.get mt s name = (s1, some e, none, n) := by
  unfold LazyExecute.get
  split
  · rw [hld]
  · rename_i hcond
    rw [hs, hn] at hcond
    simp at hcond

/-- The `get` trap on a triggering access whose load succeeds: the value is
read from the freshly loaded target. -/
theorem get_eq_trigger_ok {V : Type} (mt : MTable V) (s : LEState V)
    (name : String) (s1 : LEState V) (n : Nat)
    (hs : s.loaded = false) (hn : s.passthru.contains name = false)
    (hld : LazyExecute.load mt s = (s1, none, n)) :
    LazyExecute.get mt s name = (s1, none, s1.objData name, n) := by
  unfold LazyExecute.get
  split
  · rw [hld]
  · rename_i hcond
    rw [hs, hn] at hcond
    simp at hcond

/-- Once `loaded` is `true`, the `get` trap forwards directly: the binding is
unchanged, no error, the target's member is returned, and the deferred
operation is not invoked. -/
theorem get_of_loaded {V : Type} (mt : MTable V) (s : LEState V)
    (name : String) (h : s.loaded = true) :
    LazyExecute.get mt s name = (s, none, s.objData name, 0) := by
  unfold LazyExecute.get
  split
  · rename_i hcond
    rw [h] at hcond
    simp at hcond
  · rfl

/-- The `get` trap on a pass-through name forwards directly, whatever the
load state. -/
theorem get_of_passthru {V : Type} (mt : MTable V) (s : LEState V)
    (name : String) (h : name ∈ s.passthru) :
    LazyExecute.get mt s name = (s, none, s.objData name, 0) := by
  unfold LazyExecute.get
  split
  · rename_i hcond
    have hc : s.passthru.contains name = true := by simpa using h
    rw [hc] at hcond
    simp at hcond
  · rfl

/-- Once `loaded` is `true`, any sequence of accesses leaves the binding
unchanged and never invokes the deferred operation. -/
theorem runAccesses_of_loaded {V : Type} (mt : MTable V) :
    ∀ (names : List String) (s : LEState V), s.loaded = true →
      LazyExecute.runAccesses mt s names = (s, 0)
  | [], _, _ => rfl
  | n :: rest, s, h => by
    unfold LazyExecute.runAccesses
    rw [get_of_loaded mt s n h, runAccesses_of_loaded mt rest s h]
    rfl

/-- Claim C4: after a triggered deferred load completes (returns without
throwing), the stream cursor equals the position recorded immediately before
the load sequence began — stated both for `load` itself, for every deferred
operation and wherever it leaves the stream, and for an arbitrary access
through the `get` trap (every access pattern). -/
theorem load_restores_position_on_success {V : Type} (mt : MTable V)
    (s : LEState V) (name : String) :
    ((LazyExecute.load mt s).2.1 = none →
      (LazyExecute.load mt s).1.file.pos = s.file.pos) ∧
    ((LazyExecute.get mt s name).2.1 = none →
      (LazyExecute.get mt s name).1.file.pos = s.file.pos) := by
  have hl : (LazyExecute.load mt s).2.1 = none →
      (LazyExecute.load mt s).1.file.pos = s.file.pos := by
    intro h
    cases hmt : mt (s.loadMethod.getD nullKey) with
    | none => rw [load_eq_absent mt s hmt] at h; simp at h
    | some f =>
      rcases hf : f s.objData (s.file.seek s.startPos) s.loadArgs with
        ⟨obj2, file2, e⟩
      cases e with
      | some e0 => rw [load_eq_err mt s f obj2 file2 e0 hmt hf] at h; simp at h
      | none => rw [load_eq_ok mt s f obj2 file2 hmt hf]; rfl
  refine ⟨hl, ?_⟩
  intro h
  by_cases hld : s.loaded = true
  · rw [get_of_loaded mt s name hld]
  · have hs : s.loaded = false := by
      cases hq : s.loaded
      · rfl
      · exact absurd hq hld
    by_cases hmem : s.passthru.contains name = true
    · rw [get_of_passthru mt s name (by simpa using hmem)]
    · have hn : s.passthru.contains name = false := by
        cases hq : s.passthru.contains name
        · rfl
        · exact absurd hq hmem
      rcases hldq : LazyExecute.load mt s with ⟨s1, e1, n1⟩
      cases e1 with
      | some e =>
        rw [get_eq_trigger_err mt s name s1 e n1 hs hn hldq] at h
        simp at h
      | none =>
        rw [get_eq_trigger_ok mt s name s1 n1 hs hn hldq]
        have h2 := hl (by rw [hldq])
        rw [hldq] at h2
        exact h2

/-- Claim C5: the deferred operation is always invoked with the stream
positioned at exactly `startPos`, no matter where the cursor currently is
(i.e. regardless of any seeks between construction and the triggering
access).  The operation `probe` records the cursor position it observes when
invoked into the member `kSeen`; for every binding state this recorded
position is `startPos`.  Moreover `startPos` is captured at construction as
`file.tell()` and is never changed afterwards by `later`, `ignore` or
`load`. -/
theorem op_invoked_at_startPos (s : LEState Int) (g : ObjData Int) (f0 : File)
    (hm : s.loadMethod = some kParse) :
    (LazyExecute.load probeTable s).1.objData kSeen = some s.startPos ∧
    (LazyExecute.construct 0 g f0).startPos = f0.tell ∧
    (∀ (mt : MTable Int), (LazyExecute.load mt s).1.startPos = s.startPos) ∧
    (LazyExecute.later s kParse []).startPos = s.startPos ∧
    (LazyExecute.ignore s [kW]).startPos = s.startPos := by
  have hmt : probeTable (s.loadMethod.getD nullKey) = some probe := by
    rw [hm]
    rfl
  refine ⟨?_, rfl, ?_, rfl, rfl⟩
  · rw [load_eq_ok probeTable s probe
      (fun n => if n = kSeen then some (s.file.seek s.startPos).pos
        else s.objData n)
      (s.file.seek s.startPos) hmt rfl]
    simp [File.seek]
  · intro mt
    cases hmt2 : mt (s.loadMethod.getD nullKey) with
    | none => rw [load_eq_absent mt s hmt2]
    | some f =>
      rcases hf : f s.objData (s.file.seek s.startPos) s.loadArgs with
        ⟨obj2, file2, e⟩
      cases e with
      | some e0 => rw [load_eq_err mt s f obj2 file2 e0 hmt2 hf]
      | none => rw [load_eq_ok mt s f obj2 file2 hmt2 hf]

/-- Claim C7: while the binding is unloaded, any number of accesses to
pass-through (exempt) members invoke the deferred operation zero times and
leave the binding — in particular the `loaded` flag — exactly as it was;
and one access to any member of the pass-through list (membership decided by
exact string equality) forwards directly to the target. -/
theorem exempt_accesses_trigger_nothing {V : Type} (mt : MTable V)
    (s : LEState V) (names : List String)
    (hs : s.loaded = false)
    (hall : ∀ n, n ∈ names → n ∈ s.passthru) :
    LazyExecute.runAccesses mt s names = (s, 0) ∧
    ∀ n, n ∈ s.passthru →
      LazyExecute.get mt s n = (s, none, s.objData n, 0) := by
  refine ⟨?_, fun n hn => get_of_passthru mt s n hn⟩
  induction names with
  | nil => rfl
  | cons n rest ih =>
    unfold LazyExecute.runAccesses
    rw [get_of_passthru mt s n (hall n (by simp)),
      ih (fun m hm => hall m (by simp [hm]))]
    rfl

/-- Claim C10: a successful `load` changes nothing in the binding's own
state except the `loaded` flag: the recorded start position, the registered
deferred operation name and argument list, the pass-through list and the
identity of the wrapped target are all preserved. -/
theorem load_only_sets_loaded {V : Type} (mt : MTable V) (s : LEState V)
    (h : (LazyExecute.load mt s).2.1 = none) :
    (LazyExecute.load mt s).1.loaded = true ∧
    (LazyExecute.load mt s).1.startPos = s.startPos ∧
    (LazyExecute.load mt s).1.loadMethod = s.loadMethod ∧
    (LazyExecute.load mt s).1.loadArgs = s.loadArgs ∧
    (LazyExecute.load mt s).1.passthru = s.passthru ∧
    (LazyExecute.load mt s).1.objRef = s.objRef := by
  cases hmt : mt (s.loadMethod.getD nullKey) with
  | none => rw [load_eq_absent mt s hmt] at h; simp at h
  | some f =>
    rcases hf : f s.objData (s.file.seek s.startPos) s.loadArgs with
      ⟨obj2, file2, e⟩
    cases e with
    | some e0 => rw [load_eq_err mt s f obj2 file2 e0 hmt hf] at h; simp at h
    | none =>
      rw [load_eq_ok mt s f obj2 file2 hmt hf]
      exact ⟨rfl, rfl, rfl, rfl, rfl, rfl⟩

/-- Claim C9: while the binding is unloaded, an access to any name outside
the pass-through list — including names absent from the target — triggers
the deferred load (one invocation when the registered operation exists and
succeeds) and yields the freshly loaded target's member for that name
(`none`, i.e. `undefined`, when absent); and forwarding directly with no
state change, no error and no invocation happens precisely for pass-through
names: exemption is the only bypass before loading. -/
theorem nonexempt_first_access_triggers_and_forwards {V : Type}
    (mt : MTable V) (s : LEState V) (name : String) (f : Method V)
    (hs : s.loaded = false) :
    (name ∉ s.passthru →
      mt (s.loadMethod.getD nullKey) = some f →
      (f s.objData (s.file.seek s.startPos) s.loadArgs).2.2 = none →
      (LazyExecute.get mt s name).2.2.2 = 1 ∧
      (LazyExecute.get mt s name).2.2.1 =
        (LazyExecute.load mt s).1.objData name) ∧
    (LazyExecute.get mt s name = (s, none, s.objData name, 0) ↔
      name ∈ s.passthru) := by
  constructor
  · intro hmem hmt hsucc
    have hn : s.passthru.contains name = false := by
      cases hq : s.passthru.contains name
      · rfl
      · exact absurd (by simpa using hq) hmem
    rcases hf : f s.objData (s.file.seek s.startPos) s.loadArgs with
      ⟨obj2, file2, e⟩
    rw [hf] at hsucc
    simp only at hsucc
    subst hsucc
    have hld := load_eq_ok mt s f obj2 file2 hmt hf
    rw [get_eq_trigger_ok mt s name _ _ hs hn hld, hld]
    exact ⟨rfl, rfl⟩
  · constructor
    · intro heq
      by_contra hmem
      have hn : s.passthru.contains name = false := by
        cases hq : s.passthru.contains name
        · rfl
        · exact absurd (by simpa using hq) hmem
      cases hmt : mt (s.loadMethod.getD nullKey) with
      | none =>
        have := load_eq_absent mt s hmt
        rw [get_eq_trigger_err mt s name _ JsError.typeError 0 hs hn this] at heq
        have h2 := congrArg (fun t => t.2.1) heq
        simp at h2
      | some f2 =>
        rcases hf : f2 s.objData (s.file.seek s.startPos) s.loadArgs with
          ⟨obj2, file2, e⟩
        cases e with
        | some e0 =>
          have hld := load_eq_err mt s f2 obj2 file2 e0 hmt hf
          rw [get_eq_trigger_err mt s name _ e0 1 hs hn hld] at heq
          have h2 := congrArg (fun t => t.2.1) heq
          simp at h2
        | none =>
          have hld := load_eq_ok mt s f2 obj2 file2 hmt hf
          rw [get_eq_trigger_ok mt s name _ 1 hs hn hld] at heq
          have h2 := congrArg (fun t => t.2.2.2) heq
          simp at h2
    · intro hmem
      exact get_of_passthru mt s name hmem

/-!
Witnesses: each theorem above with hypotheses, applied at a concrete
instance with every hypothesis discharged by computation.
-/

/-- Witness for claim C4 at the concrete success scenario `mtOk`/`sW`. -/
theorem load_restores_position_on_success_witness :
    (LazyExecute.load mtOk sW).2.1 = none ∧
    (LazyExecute.load mtOk sW).1.file.pos = sW.file.pos :=
  ⟨by decide, (load_restores_position_on_success mtOk sW kData).1 (by decide)⟩

/-- Witness for claim C5 at the concrete binding `sPre`. -/
theorem op_invoked_at_startPos_witness :
    sPre.loadMethod = some kParse ∧
    (LazyExecute.load probeTable sPre).1.objData kSeen = some sPre.startPos :=
  ⟨rfl, (op_invoked_at_startPos sPre (fun _ => none) { pos := 0 } rfl).1⟩

/-- Witness for claim C7: three accesses to the exempt names of `sW`. -/
theorem exempt_accesses_trigger_nothing_witness :
    sW.loaded = false ∧
    LazyExecute.runAccesses mtOk sW [kW, kH, kW] = (sW, 0) :=
  ⟨rfl,
    (exempt_accesses_trigger_nothing mtOk sW [kW, kH, kW] rfl (by decide)).1⟩

/-- Witness for claim C9: accessing the absent, non-exempt name `kMissing`
of `sW` invokes the deferred operation once and yields `undefined`. -/
theorem nonexempt_first_access_triggers_and_forwards_witness :
    kMissing ∉ sW.passthru ∧
    (LazyExecute.get mtOk sW kMissing).2.2.2 = 1 ∧
    (LazyExecute.get mtOk sW kMissing).2.2.1 =
      (LazyExecute.load mtOk sW).1.objData kMissing := by
  have h :=
    (nonexempt_first_access_triggers_and_forwards mtOk sW kMissing opOk
      rfl).1 (by decide) rfl (by decide)
  exact ⟨by decide, h.1, h.2⟩

/-- Witness for claim C10 at the concrete success scenario `mtOk`/`sW`. -/
theorem load_only_sets_loaded_witness :
    (LazyExecute.load mtOk sW).2.1 = none ∧
    ((LazyExecute.load mtOk sW).1.loaded = true ∧
      (LazyExecute.load mtOk sW).1.startPos = sW.startPos ∧
      (LazyExecute.load mtOk sW).1.loadMethod = sW.loadMethod ∧
      (LazyExecute.load mtOk sW).1.loadArgs = sW.loadArgs ∧
      (LazyExecute.load mtOk sW).1.passthru = sW.passthru ∧
      (LazyExecute.load mtOk sW).1.objRef = sW.objRef) :=
  ⟨by decide, load_only_sets_loaded mtOk sW (by decide)⟩

/-!
Corrected claims: counterexamples against the specification text, and the
amended statements that the code actually satisfies.
-/

/-- Counterexample to claim C2: at the concrete failing load `mtFail`/`sPre`
(pre-load cursor 500, region start 100, operation throws without seeking)
the error propagates, but `loaded` stays `false` — not `true` as claimed —
and the cursor is left at `startPos = 100` instead of being restored to
500: the restoration is not performed on the error path. -/
theorem failedLoad_noRestore_noLoadedFlag :
    (LazyExecute.load mtFail sPre).2.1 = some (JsError.userError kBoom) ∧
    (LazyExecute.load mtFail sPre).1.loaded = false ∧
    (LazyExecute.load mtFail sPre).1.file.pos = 100 ∧
    sPre.file.pos = 500 := by
  refine ⟨by decide, by decide, by decide, by decide⟩

/-- Claim C2 as amended: when the deferred operation throws during a
triggered load, the error does propagate to the caller, but `loaded`
remains `false` (so the load is re-attempted: a later non-exempt access
invokes the deferred operation again), and no restoring seek runs: the
stream is left wherever the operation left it. -/
theorem failedLoad_propagates_keeps_unloaded_no_restore {V : Type}
    (mt : MTable V) (s : LEState V) (f : Method V) (e : JsError)
    (name : String)
    (hmt : mt (s.loadMethod.getD nullKey) = some f)
    (hs : s.loaded = false)
    (he : (f s.objData (s.file.seek s.startPos) s.loadArgs).2.2 = some e)
    (hn : name ∉ s.passthru) :
    (LazyExecute.load mt s).2.1 = some e ∧
    (LazyExecute.load mt s).1.loaded = false ∧
    (LazyExecute.load mt s).1.file =
      (f s.objData (s.file.seek s.startPos) s.loadArgs).2.1 ∧
    (LazyExecute.get mt (LazyExecute.load mt s).1 name).2.2.2 = 1 := by
  rcases hf : f s.objData (s.file.seek s.startPos) s.loadArgs with
    ⟨obj2, file2, e2⟩
  rw [hf] at he
  simp only at he
  subst he
  have hld := load_eq_err mt s f obj2 file2 e hmt hf
  rw [hld]
  refine ⟨rfl, hs, rfl, ?_⟩
  set s1 : LEState V :=
    { s with objData := obj2, file := file2 } with hs1
  have hn1 : s1.passthru.contains name = false := by
    cases hq : s1.passthru.contains name
    · rfl
    · exact absurd (by simpa [hs1] using hq) hn
  have hmt1 : mt (s1.loadMethod.getD nullKey) = some f := hmt
  rcases hf1 : f s1.objData (s1.file.seek s1.startPos) s1.loadArgs with
    ⟨obj3, file3, e3⟩
  cases e3 with
  | some e4 =>
    rw [get_eq_trigger_err mt s1 name _ e4 1 hs hn1
      (load_eq_err mt s1 f obj3 file3 e4 hmt1 hf1)]
  | none =>
    rw [get_eq_trigger_ok mt s1 name _ 1 hs hn1
      (load_eq_ok mt s1 f obj3 file3 hmt1 hf1)]

/-- Witness for the amended claim C2 at the concrete failing scenario. -/
theorem failedLoad_propagates_witness :
    (LazyExecute.load mtFail sPre).2.1 = some (JsError.userError kBoom) ∧
    (LazyExecute.load mtFail sPre).1.loaded = false ∧
    (LazyExecute.load mtFail sPre).1.file =
      (opFail sPre.objData (sPre.file.seek sPre.startPos)
        sPre.loadArgs).2.1 ∧
    (LazyExecute.get mtFail (LazyExecute.load mtFail sPre).1 kData).2.2.2
      = 1 :=
  failedLoad_propagates_keeps_unloaded_no_restore mtFail sPre opFail
    (JsError.userError kBoom) kData rfl rfl (by decide) (by decide)

/-- Counterexample to claim C6: with the failing deferred operation
`opFail`, a second access to the same member after the first triggering
access re-invokes the deferred operation — two invocations in total, not
exactly one. -/
theorem failedLoad_secondAccess_reinvokes :
    (LazyExecute.runAccesses mtFail sPre [kData, kData]).2 = 2 := by
  decide

/-- Claim C6 as amended: provided the deferred operation completes without
throwing when invoked, the first access to a non-exempt member triggers
exactly one invocation of the deferred operation, and every subsequent
access — to that member or any other — triggers zero further invocations. -/
theorem firstAccess_triggers_exactly_once_on_success {V : Type}
    (mt : MTable V) (s : LEState V) (m : String) (names : List String)
    (f : Method V)
    (hs : s.loaded = false) (hm : m ∉ s.passthru)
    (hmt : mt (s.loadMethod.getD nullKey) = some f)
    (hsucc : (f s.objData (s.file.seek s.startPos) s.loadArgs).2.2 = none) :
    (LazyExecute.runAccesses mt s (m :: names)).2 = 1 := by
  rcases hf : f s.objData (s.file.seek s.startPos) s.loadArgs with
    ⟨obj2, file2, e2⟩
  rw [hf] at hsucc
  simp only at hsucc
  subst hsucc
  have hn : s.passthru.contains m = false := by
    cases hq : s.passthru.contains m
    · rfl
    · exact absurd (by simpa using hq) hm
  have hld := load_eq_ok mt s f obj2 file2 hmt hf
  unfold LazyExecute.runAccesses
  rw [get_eq_trigger_ok mt s m _ 1 hs hn hld,
    runAccesses_of_loaded mt names _ rfl]
  rfl

/-- Witness for the amended claim C6: in the success scenario the first
access to `kData` followed by accesses to `kMissing` and `kW` performs one
invocation in total. -/
theorem firstAccess_triggers_exactly_once_witness :
    (LazyExecute.runAccesses mtOk sW [kData, kMissing, kW]).2 = 1 :=
  firstAccess_triggers_exactly_once_on_success mtOk sW kData [kMissing, kW]
    opOk rfl (by decide) rfl (by decide)

/-- Counterexample to claim C8: on the binding `sNoLater`, on which `later`
was never called, the first non-exempt access does not mark `loaded` true
as claimed — it throws a `TypeError` (calling the absent `"null"` member)
and `loaded` stays `false`. -/
theorem missing_later_throws_typeError :
    (LazyExecute.get mtEmpty sNoLater kData).2.1 = some JsError.typeError ∧
    (LazyExecute.get mtEmpty sNoLater kData).1.loaded = false := by
  refine ⟨by decide, by decide⟩

/-- Claim C8 as amended: if no deferred operation was ever registered, a
non-exempt access attempts to call the target's `"null"` member; when that
member is absent this throws a `TypeError`, leaves `loaded` false, abandons
the cursor at `startPos`, and the next non-exempt access throws again —
deferred loading never becomes a silent no-op. -/
theorem missing_later_typeError_every_access {V : Type} (mt : MTable V)
    (s : LEState V) (name : String)
    (hm : s.loadMethod = none) (hmt : mt nullKey = none)
    (hs : s.loaded = false) (hn : name ∉ s.passthru) :
    LazyExecute.get mt s name =
      ({ s with file := s.file.seek s.startPos }, some JsError.typeError,
        none, 0) ∧
    (LazyExecute.get mt { s with file := s.file.seek s.startPos }
      name).2.1 = some JsError.typeError := by
  have hkey : mt (s.loadMethod.getD nullKey) = none := by rw [hm]; exact hmt
  have hn0 : s.passthru.contains name = false := by
    cases hq : s.passthru.contains name
    · rfl
    · exact absurd (by simpa using hq) hn
  constructor
  · rw [get_eq_trigger_err mt s name _ JsError.typeError 0 hs hn0
      (load_eq_absent mt s hkey)]
  · set s1 : LEState V := { s with file := s.file.seek s.startPos } with hs1
    have hkey1 : mt (s1.loadMethod.getD nullKey) = none := hkey
    rw [get_eq_trigger_err mt s1 name _ JsError.typeError 0 hs hn0
      (load_eq_absent mt s1 hkey1)]

/-- Witness for the amended claim C8 at the concrete binding `sNoLater`. -/
theorem missing_later_typeError_witness :
    LazyExecute.get mtEmpty sNoLater kData =
      ({ sNoLater with file := sNoLater.file.seek sNoLater.startPos },
        some JsError.typeError, none, 0) ∧
    (LazyExecute.get mtEmpty
      { sNoLater with file := sNoLater.file.seek sNoLater.startPos }
      kData).2.1 = some JsError.typeError :=
  missing_later_typeError_every_access mtEmpty sNoLater kData rfl rfl rfl
    (by decide)

/-- Claim C3 (code bug): intercepted invocation does not behave like a
field read.  On the concrete unloaded binding `sApply`, whose member `kM`
is exempt, a field read of `kM` is forwarded directly and returns the
target's value `7`; the `apply` trap on the very same binding throws a
`ReferenceError` — its exempt check evaluates an identifier `name` that is
not in scope instead of the requested member name — and produces no result
(the trap has no `return`), so the target's result is never returned to
the caller. -/
theorem applyTrap_referenceError_no_result :
    LazyExecute.applyTrap sApply ([] : List Int) =
      (sApply, some JsError.referenceError, none, 0) ∧
    LazyExecute.get mtEmpty sApply kM = (sApply, none, some 7, 0) := by
  constructor
  · rfl
  · rw [get_of_passthru mtEmpty sApply kM (by decide)]
    rfl

/-- Counterexample to claim C1: `loaded` is not set before the deferred
operation is invoked, so a re-entrant non-exempt access from inside the
deferred operation re-triggers the load.  Concretely, with the deferred
operation `[JsAction.access kX]` (which reads the non-exempt member `kX`
through the proxy) and call-stack fuel 2, the deferred operation is invoked
twice — a second invocation, which the claim rules out — and the run aborts
by stack exhaustion instead of terminating. -/
theorem reentrantAccess_secondInvocation :
    (runActions mtReent 2 sPre [JsAction.access kX]).2 =
      (some JsError.stackOverflow, 2) := by
  decide

/-- Claim C1 as amended: `loaded` only becomes true after the deferred
operation returns successfully, so during the operation it is still false
and a re-entrant access to a non-exempt member re-enters the load sequence;
for every amount of call-stack fuel the run invokes the deferred operation
once per recursion level (`fuel` invocations in total) and ends in stack
exhaustion rather than terminating. -/
theorem reentrantAccess_reinvokes_every_level (fuel : Nat) :
    ∀ s : LEState Int, s.loaded = false → s.passthru = [] →
      s.loadMethod = some kParse →
      (runActions mtReent fuel s [JsAction.access kX]).2 =
        (some JsError.stackOverflow, fuel) := by
  induction fuel with
  | zero =>
    intro s h1 h2 h3
    rfl
  | succ n ih =>
    intro s h1 h2 h3
    have hcond : (!s.loaded && !(s.passthru.contains kX)) = true := by
      rw [h1, h2]
      rfl
    have hmt : mtReent (s.loadMethod.getD nullKey) =
        some [JsAction.access kX] := by
      rw [h3]
      rfl
    have hrec := ih { s with file := s.file.seek s.startPos } h1 h2 h3
    rcases hrr : runActions mtReent n
        { s with file := s.file.seek s.startPos } [JsAction.access kX] with
      ⟨s2, e2, k2⟩
    rw [hrr] at hrec
    simp only [Prod.mk.injEq] at hrec
    obtain ⟨he2, hk2⟩ := hrec
    subst he2
    subst hk2
    simp only [runActions, hcond, hmt, hrr, if_true]

/-- Witness for the amended claim C1: the concrete re-entrant binding with
fuel 3 performs three invocations and exhausts the stack. -/
theorem reentrantAccess_reinvokes_witness :
    sPre.loaded = false ∧ sPre.passthru = [] ∧
    sPre.loadMethod = some kParse ∧
    (runActions mtReent 3 sPre [JsAction.access kX]).2 =
      (some JsError.stackOverflow, 3) :=
  ⟨rfl, rfl, rfl, reentrantAccess_reinvokes_every_level 3 sPre rfl rfl rfl⟩
